import Mathlib

/-!
Shallow embedding of the performance-instrumentation and caching layer of
the f1-analytics repository (`src/utils/performance.py`, `src/utils/caching.py`).

Modelling conventions:
* Python values that may be `None` are modelled as `Option α`; `none` is the
  Python `None` object (also the "not found" sentinel returned by
  `SmartCache.get`).
* Wall-clock instants and durations are modelled as rationals (`ℚ`); every
  operation that reads the clock takes the current instant `now` explicitly.
* A Python `dict` is an insertion-ordered association list with unique keys;
  insertion of an existing key replaces the entry in place, new keys are
  appended, deletion removes the (unique) matching entry, and iteration order
  is list order.
* A Python function argument is represented by its `str` form: `some s` when
  `str(arg)` returns `s`, `none` when `str(arg)` raises.  `md5(...).hexdigest()`
  is a fixed deterministic function of the hashed string, so cache keys are
  modelled by the pre-hash string itself: two derived keys are equal exactly
  when the pre-hash strings are equal.
* A call of a wrapped operation is modelled by its outcome
  `Except String (Option α)`: `Except.ok v` for a normal return of the Python
  value `v` (possibly `None`), `Except.error e` for a raised exception whose
  `str` is `e`.
-/

/-- One record of `PerformanceMonitor` (`performance.py`, `PerformanceMetric`). -/
structure PerformanceMetric where
  name : String
  operation : String
  duration_ms : ℚ
  timestamp : ℚ
  success : Bool
  error_msg : Option String
deriving DecidableEq, Repr

/-- State of `performance.py`'s `PerformanceMonitor`. -/
structure PerformanceMonitor where
  metrics : List PerformanceMetric
  max_metrics : ℕ
  cache_hits : ℕ
  cache_misses : ℕ
deriving DecidableEq, Repr

/-- `PerformanceMonitor.record_metric`: append, then keep only the last
`max_metrics` records when the log exceeds the maximum.  Python's
`self.metrics[-self.max_metrics:]` is the whole list when `max_metrics = 0`
(since `-0 = 0`), and the last `max_metrics` elements otherwise. -/
def PerformanceMonitor.record_metric (m : PerformanceMonitor)
    (x : PerformanceMetric) : PerformanceMonitor :=
  let ms := m.metrics ++ [x]
  let ms2 :=
    if m.max_metrics < ms.length then
      if m.max_metrics = 0 then ms else ms.drop (ms.length - m.max_metrics)
    else ms
  { m with metrics := ms2 }

/-- `PerformanceMonitor.record_cache_hit`. -/
def PerformanceMonitor.record_cache_hit (m : PerformanceMonitor) :
    PerformanceMonitor :=
  { m with cache_hits := m.cache_hits + 1 }

/-- `PerformanceMonitor.record_cache_miss`. -/
def PerformanceMonitor.record_cache_miss (m : PerformanceMonitor) :
    PerformanceMonitor :=
  { m with cache_misses := m.cache_misses + 1 }

/-- `PerformanceMonitor.get_average_duration`.  The Python guard
`if operation:` is truthiness: filtering happens only when `operation` is
neither `None` nor the empty string. -/
def PerformanceMonitor.get_average_duration (m : PerformanceMonitor)
    (operation : Option String) : ℚ :=
  if m.metrics = [] then 0
  else
    let filtered :=
      match operation with
      | none => m.metrics
      | some op =>
          if op = "" then m.metrics
          else m.metrics.filter (fun x => x.operation = op)
    if filtered = [] then 0
    else (filtered.map PerformanceMetric.duration_ms).sum / (filtered.length : ℚ)

/-- One entry of the `SmartCache` (`caching.py`, `CacheEntry`). -/
structure CacheEntry (α : Type) where
  value : Option α
  created_at : ℚ
  ttl_seconds : Option ℚ
  access_count : ℕ
  last_accessed : ℚ
deriving DecidableEq, Repr

/-- `CacheEntry.__init__`: fresh entry created at instant `now`. -/
def CacheEntry.init (value : Option α) (ttl_seconds : Option ℚ) (now : ℚ) :
    CacheEntry α :=
  ⟨value, now, ttl_seconds, 0, now⟩

/-- `CacheEntry.is_expired`: no TTL never expires; otherwise expired when the
elapsed time since creation strictly exceeds the TTL. -/
def CacheEntry.is_expired (e : CacheEntry α) (now : ℚ) : Bool :=
  match e.ttl_seconds with
  | none => false
  | some t => decide (t < now - e.created_at)

/-- The entry after `CacheEntry.access` at instant `now`. -/
def CacheEntry.accessed (e : CacheEntry α) (now : ℚ) : CacheEntry α :=
  { e with access_count := e.access_count + 1, last_accessed := now }

/-- `dict.__getitem__` / `in`: first (unique) binding of the key. -/
def dictGet (k : String) : List (String × CacheEntry α) → Option (CacheEntry α)
  | [] => none
  | p :: xs => if p.1 = k then some p.2 else dictGet k xs

/-- `dict.__setitem__`: replace the existing binding in place, else append. -/
def dictSet (k : String) (v : CacheEntry α) :
    List (String × CacheEntry α) → List (String × CacheEntry α)
  | [] => [(k, v)]
  | p :: xs => if p.1 = k then (k, v) :: xs else p :: dictSet k v xs

/-- `dict.__delitem__`: remove the (unique) binding of the key. -/
def dictErase (k : String) :
    List (String × CacheEntry α) → List (String × CacheEntry α)
  | [] => []
  | p :: xs => if p.1 = k then xs else p :: dictErase k xs

/-- `min(self.cache.keys(), key=lambda k: self.cache[k].last_accessed)`,
paired with its entry: the first binding attaining the minimal last-access
instant (Python's `min` keeps the earliest of equal minima). -/
def lruPair : List (String × CacheEntry α) → Option (String × CacheEntry α)
  | [] => none
  | p :: xs =>
      match lruPair xs with
      | none => some p
      | some q =>
          if q.2.last_accessed < p.2.last_accessed then some q else some p

/-- State of `caching.py`'s `SmartCache`. -/
structure SmartCache (α : Type) where
  max_size : ℕ
  default_ttl : Option ℚ
  cache : List (String × CacheEntry α)
  hits : ℕ
  misses : ℕ
deriving DecidableEq, Repr

/-- `SmartCache._evict_lru`: delete the least-recently-used binding; no-op on
an empty cache. -/
def SmartCache.evict_lru (c : SmartCache α) : SmartCache α :=
  match lruPair c.cache with
  | none => c
  | some q => { c with cache := dictErase q.1 c.cache }

/-- `SmartCache.get` at instant `now`.  Returns the Python value produced by
the call (`none` is both the "not found" sentinel and a stored `None`),
the new cache state, and the new state of the process-wide monitor. -/
def SmartCache.get (c : SmartCache α) (mon : PerformanceMonitor) (key : String)
    (now : ℚ) : Option α × SmartCache α × PerformanceMonitor :=
  match dictGet key c.cache with
  | none =>
      (none, { c with misses := c.misses + 1 }, mon.record_cache_miss)
  | some entry =>
      if entry.is_expired now then
        (none,
         { c with cache := dictErase key c.cache, misses := c.misses + 1 },
         mon.record_cache_miss)
      else
        (entry.value,
         { c with cache := dictSet key (entry.accessed now) c.cache,
                  hits := c.hits + 1 },
         mon.record_cache_hit)

/-- `actual_ttl = ttl_seconds if ttl_seconds is not None else self.default_ttl`. -/
def resolveTtl (ttl_seconds default_ttl : Option ℚ) : Option ℚ :=
  match ttl_seconds with
  | some t => some t
  | none => default_ttl

/-- `SmartCache.set` at instant `now`: resolve the TTL (argument if not
`None`, else the default), evict the LRU entry when at or above capacity,
then insert a fresh entry. -/
def SmartCache.set (c : SmartCache α) (key : String) (value : Option α)
    (ttl_seconds : Option ℚ) (now : ℚ) : SmartCache α :=
  let actual_ttl := resolveTtl ttl_seconds c.default_ttl
  let c1 := if c.max_size ≤ c.cache.length then c.evict_lru else c
  { c1 with cache := dictSet key (CacheEntry.init value actual_ttl now) c1.cache }

/-- Sequence a list of possibly-failed `str` conversions: `none` as soon as one
element raises (a Python list comprehension aborts at the first exception). -/
def seqStr : List (Option String) → Option (List String)
  | [] => some []
  | none :: _ => none
  | some s :: xs =>
      match seqStr xs with
      | none => none
      | some ys => some (s :: ys)

/-- Comparison used by `sorted(kwargs.items())`: Python compares the tuples,
and since `dict` keys are distinct the order is decided by the keys alone. -/
def kwLe (a b : String × Option String) : Prop := a.1 ≤ b.1

instance : DecidableRel kwLe := fun a b => inferInstanceAs (Decidable (a.1 ≤ b.1))

instance : IsTotal (String × Option String) kwLe :=
  ⟨fun a b => le_total a.1 b.1⟩

instance : IsTrans (String × Option String) kwLe :=
  ⟨fun _ _ _ h1 h2 => le_trans h1 h2⟩

/-- `SmartCache._generate_key`: `str` every positional argument, then append
the sorted keyword items formatted `k=v`, join with `|`.  Any failing `str`
makes the whole derivation fail (the method returns Python `None`).  The
`md5` hex digest applied to the joined string in the source is a fixed
deterministic injection-free function of it, so the model uses the joined
string itself as the key. -/
def SmartCache._generate_key (args : List (Option String))
    (kwargs : List (String × Option String)) : Option String :=
  match seqStr args with
  | none => none
  | some argStrs =>
      let sortedKw := List.insertionSort kwLe kwargs
      match seqStr (sortedKw.map fun kv => kv.2.map fun v => kv.1 ++ "=" ++ v) with
      | none => none
      | some kwStrs => some (String.intercalate "|" (argStrs ++ kwStrs))

deriving instance DecidableEq for Except

/-- Outcome of one call of the function produced by the `cached` decorator. -/
structure CallResult (α : Type) where
  result : Except String (Option α)
  cache : SmartCache α
  monitor : PerformanceMonitor
  execs : ℕ
deriving DecidableEq, Repr

/-- One invocation of `cached(...)`'s `wrapper` at instant `now`.  `fres` is
the outcome the wrapped operation would produce if invoked on this call;
`execs` counts whether the underlying operation actually ran.  On
key-derivation failure the operation is called directly; on a cache read
returning a non-`None` value that value is returned without calling the
operation; otherwise the operation runs and, on normal return, its result is
stored under the derived key with the cache's default TTL. -/
def cachedCall (fres : Except String (Option α)) (c : SmartCache α)
    (mon : PerformanceMonitor) (args : List (Option String))
    (kwargs : List (String × Option String)) (now : ℚ) : CallResult α :=
  match SmartCache._generate_key args kwargs with
  | none => ⟨fres, c, mon, 1⟩
  | some key =>
      match c.get mon key now with
      | (cached_value, c1, mon1) =>
          match cached_value with
          | some v => ⟨Except.ok (some v), c1, mon1, 0⟩
          | none =>
              match fres with
              | Except.error e => ⟨Except.error e, c1, mon1, 1⟩
              | Except.ok r => ⟨Except.ok r, c1.set key r none now, mon1, 1⟩

/-- The fresh `SmartCache(default_ttl=ttl_seconds)` owned by one `cached`
decorator application (`max_size` keeps its default of 1000). -/
def cachedFreshCache (ttl_seconds : Option ℚ) : SmartCache α :=
  ⟨1000, ttl_seconds, [], 0, 0⟩

/-- One invocation of `monitor_performance(...)`'s `wrapper`: on normal return
record a successful metric and return the result; on an exception record a
failed metric carrying `str(e)` and re-raise.  `dur` is the measured elapsed
duration in milliseconds, `now` the completion instant. -/
def monitoredCall (modName op_name : String) (fres : Except String (Option α))
    (dur now : ℚ) (mon : PerformanceMonitor) :
    Except String (Option α) × PerformanceMonitor :=
  match fres with
  | Except.ok r =>
      (Except.ok r, mon.record_metric ⟨modName, op_name, dur, now, true, none⟩)
  | Except.error e =>
      (Except.error e,
       mon.record_metric ⟨modName, op_name, dur, now, false, some e⟩)

/-- Concrete run: first call of a `cached`-wrapped operation that returns
Python `None`, on the decorator's fresh cache, at instant 0. -/
def noneResultCall1 : CallResult ℕ :=
  cachedCall (Except.ok none) (cachedFreshCache none) ⟨[], 1000, 0, 0⟩
    [some "1"] [] 0

/-- Concrete run: the identical second call, continuing from the state left by
`noneResultCall1`. -/
def noneResultCall2 : CallResult ℕ :=
  cachedCall (Except.ok none) noneResultCall1.cache noneResultCall1.monitor
    [some "1"] [] 0

/-- Concrete run: first call of a `cached`-wrapped operation returning 42. -/
def someResultCall1 : CallResult ℕ :=
  cachedCall (Except.ok (some 42)) (cachedFreshCache none) ⟨[], 1000, 0, 0⟩
    [some "7"] [] 0

/-- Concrete run: the identical second call, continuing from the state left by
`someResultCall1`; its own outcome argument is irrelevant on a hit. -/
def someResultCall2 : CallResult ℕ :=
  cachedCall (Except.error "x") someResultCall1.cache someResultCall1.monitor
    [some "7"] [] 5

/-- Strict comparison of keyword items by name, used to pin down the sorted
order: with the distinct names of a Python `dict` it is the order
`sorted(kwargs.items())` produces. -/
def kwLt (a b : String × Option String) : Prop := a.1 < b.1

instance : IsAntisymm (String × Option String) kwLt :=
  ⟨fun a _ h1 h2 => absurd (lt_trans h1 h2) (lt_irrefl a.1)⟩

/-- The process-wide monitor in its startup state. -/
def emptyMonitor : PerformanceMonitor := ⟨[], 1000, 0, 0⟩

/-- Concrete cache at capacity (2 entries, max 2) with distinct last-access
instants; entry "a" is the least recently used. -/
def fullCache2 : SmartCache ℕ :=
  ⟨2, none, [("a", ⟨some 1, 0, none, 0, 0⟩), ("b", ⟨some 2, 0, none, 0, 1⟩)], 0, 0⟩

/-- Concrete monitor holding one record with max_metrics = 1. -/
def fullMonitor1 : PerformanceMonitor := ⟨[⟨"n", "a", 1, 0, true, none⟩], 1, 0, 0⟩

/-- Concrete three-record monitor with durations 10, 20, 30 ms; operation "a"
appears on two of the three records. -/
def threeRecordMonitor : PerformanceMonitor :=
  ⟨[⟨"n", "a", 10, 0, true, none⟩, ⟨"n", "b", 20, 1, true, none⟩,
    ⟨"n", "a", 30, 2, true, none⟩], 1000, 0, 0⟩

/-- Concrete cache holding one live entry under key "k". -/
def oneEntryCache : SmartCache ℕ :=
  ⟨10, none, [("k", ⟨some 5, 0, none, 0, 0⟩)], 0, 0⟩

/-- Concrete cache holding one entry with TTL 0 created at instant 0. -/
def ttlZeroCache : SmartCache ℕ :=
  ⟨10, none, [("k", ⟨some 5, 0, some 0, 0, 0⟩)], 0, 0⟩

/-- Concrete cache holding one unexpired entry whose stored value is Python
`None`. -/
def noneValueCache : SmartCache ℕ :=
  ⟨10, none, [("k", ⟨none, 0, none, 0, 0⟩)], 0, 0⟩

/-! ### Helper lemmas -/

theorem dictGet_eq_none_of_not_mem {k : String} {l : List (String × CacheEntry α)}
    (h : k ∉ l.map Prod.fst) : dictGet k l = none := by
  induction l with
  | nil => rfl
  | cons p xs ih =>
      simp only [List.map_cons, List.mem_cons, not_or] at h
      have hne : ¬ p.1 = k := fun hh => h.1 hh.symm
      simp only [dictGet, if_neg hne]
      exact ih h.2

theorem dictGet_dictSet_self (k : String) (v : CacheEntry α)
    (l : List (String × CacheEntry α)) : dictGet k (dictSet k v l) = some v := by
  induction l with
  | nil => simp [dictGet, dictSet]
  | cons p xs ih =>
      by_cases h : p.1 = k
      · simp [dictSet, h, dictGet]
      · simp [dictSet, h, dictGet, ih]

theorem dictGet_dictErase_self (k : String) (l : List (String × CacheEntry α))
    (hnd : (l.map Prod.fst).Nodup) : dictGet k (dictErase k l) = none := by
  induction l with
  | nil => rfl
  | cons p xs ih =>
      simp only [List.map_cons, List.nodup_cons] at hnd
      by_cases h : p.1 = k
      · simp only [dictErase, if_pos h]
        exact dictGet_eq_none_of_not_mem (h ▸ hnd.1)
      · simp only [dictErase, if_neg h, dictGet, if_neg h]
        exact ih hnd.2

theorem length_dictSet_le (k : String) (v : CacheEntry α)
    (l : List (String × CacheEntry α)) :
    (dictSet k v l).length ≤ l.length + 1 := by
  induction l with
  | nil => simp [dictSet]
  | cons p xs ih =>
      by_cases h : p.1 = k
      · simp [dictSet, h]
      · simp only [dictSet, if_neg h, List.length_cons]
        omega

theorem length_dictErase_add_one {k : String} {l : List (String × CacheEntry α)}
    (h : ∃ p ∈ l, p.1 = k) : (dictErase k l).length + 1 = l.length := by
  induction l with
  | nil => simp at h
  | cons p xs ih =>
      by_cases hpk : p.1 = k
      · simp [dictErase, hpk]
      · obtain ⟨q, hq, hqk⟩ := h
        rcases List.mem_cons.mp hq with rfl | hq2
        · exact absurd hqk hpk
        · simp only [dictErase, if_neg hpk, List.length_cons]
          rw [← ih ⟨q, hq2, hqk⟩]

theorem lruPair_spec (l : List (String × CacheEntry α)) (h : l ≠ []) :
    ∃ q, lruPair l = some q ∧ q ∈ l ∧
      ∀ p ∈ l, q.2.last_accessed ≤ p.2.last_accessed := by
  induction l with
  | nil => exact absurd rfl h
  | cons p xs ih =>
      cases xs with
      | nil =>
          refine ⟨p, by simp [lruPair], by simp, ?_⟩
          intro r hr
          rcases List.mem_cons.mp hr with rfl | hr2
          · exact le_rfl
          · simp at hr2
      | cons y ys =>
          obtain ⟨q, hq, hqmem, hqmin⟩ := ih (by simp)
          have hstep : lruPair (p :: y :: ys)
              = match lruPair (y :: ys) with
                | none => some p
                | some q =>
                    if q.2.last_accessed < p.2.last_accessed then some q
                    else some p := rfl
          simp only [hstep, hq]
          by_cases hlt : q.2.last_accessed < p.2.last_accessed
          · refine ⟨q, by rw [if_pos hlt], List.mem_cons_of_mem _ hqmem, ?_⟩
            intro r hr
            rcases List.mem_cons.mp hr with rfl | hr2
            · exact le_of_lt hlt
            · exact hqmin r hr2
          · refine ⟨p, by rw [if_neg hlt], List.mem_cons_self _ _, ?_⟩
            intro r hr
            rcases List.mem_cons.mp hr with rfl | hr2
            · exact le_rfl
            · exact le_trans (not_lt.mp hlt) (hqmin r hr2)

theorem self_mem_record_metric (m : PerformanceMonitor) (x : PerformanceMetric) :
    x ∈ (m.record_metric x).metrics := by
  simp only [PerformanceMonitor.record_metric]
  by_cases h1 : m.max_metrics < (m.metrics ++ [x]).length
  · rw [if_pos h1]
    by_cases h0 : m.max_metrics = 0
    · rw [if_pos h0]; simp
    · rw [if_neg h0]
      have hle : (m.metrics ++ [x]).length - m.max_metrics ≤ m.metrics.length := by
        simp only [List.length_append, List.length_singleton]
        omega
      rw [List.drop_append_of_le_length hle]
      simp
  · rw [if_neg h1]; simp

theorem seqStr_eq_none_of_mem {l : List (Option String)} (h : none ∈ l) :
    seqStr l = none := by
  induction l with
  | nil => simp at h
  | cons a xs ih =>
      cases a with
      | none => rfl
      | some s =>
          rcases List.mem_cons.mp h with h1 | h2
          · exact absurd h1.symm (by simp)
          · simp only [seqStr, ih h2]

theorem insertionSort_perm_nodup_eq (kw1 kw2 : List (String × Option String))
    (hp : kw1.Perm kw2) (hnd : kw1.Pairwise (fun a b => a.1 ≠ b.1)) :
    List.insertionSort kwLe kw1 = List.insertionSort kwLe kw2 := by
  have hsymm : ∀ {a b : String × Option String}, a.1 ≠ b.1 → b.1 ≠ a.1 :=
    fun h => h.symm
  have hp1 : (List.insertionSort kwLe kw1).Perm kw1 := List.perm_insertionSort kwLe kw1
  have hp2 : (List.insertionSort kwLe kw2).Perm kw2 := List.perm_insertionSort kwLe kw2
  have hnd1 : (List.insertionSort kwLe kw1).Pairwise (fun a b => a.1 ≠ b.1) :=
    (hp1.pairwise_iff (fun h => hsymm h)).mpr hnd
  have hnd2 : (List.insertionSort kwLe kw2).Pairwise (fun a b => a.1 ≠ b.1) :=
    (hp2.pairwise_iff (fun h => hsymm h)).mpr
      ((hp.pairwise_iff (fun h => hsymm h)).mp hnd)
  have hs1 : (List.insertionSort kwLe kw1).Pairwise kwLe :=
    List.sorted_insertionSort kwLe kw1
  have hs2 : (List.insertionSort kwLe kw2).Pairwise kwLe :=
    List.sorted_insertionSort kwLe kw2
  have hlt1 : (List.insertionSort kwLe kw1).Sorted kwLt :=
    (hs1.and hnd1).imp fun h => lt_of_le_of_ne h.1 h.2
  have hlt2 : (List.insertionSort kwLe kw2).Sorted kwLt :=
    (hs2.and hnd2).imp fun h => lt_of_le_of_ne h.1 h.2
  exact List.eq_of_perm_of_sorted (hp1.trans (hp.trans hp2.symm)) hlt1 hlt2

theorem generate_key_perm (args : List (Option String))
    (kw1 kw2 : List (String × Option String)) (hp : kw1.Perm kw2)
    (hnd : kw1.Pairwise (fun a b => a.1 ≠ b.1)) :
    SmartCache._generate_key args kw1 = SmartCache._generate_key args kw2 := by
  unfold SmartCache._generate_key
  rw [insertionSort_perm_nodup_eq kw1 kw2 hp hnd]

/-! ### Claims -/

/-- C2 (counterexample): a SmartCache constructed with max_size = 0 holds one
entry after a single set call — `_evict_lru` on an empty dict evicts nothing,
then the insertion proceeds, so the entry count exceeds max_size. -/
theorem smartCache_set_exceeds_zero_max_size :
    ¬ (((⟨0, none, [], 0, 0⟩ : SmartCache ℕ).set "k" (some 1) none 0).cache.length
        ≤ (⟨0, none, [], 0, 0⟩ : SmartCache ℕ).max_size) := by
  decide

/-- C2 (amended): for every SmartCache with max_size ≥ 1 whose entry count is
within bounds, after a set call the entry count is still at most max_size;
when set is invoked at capacity, exactly one entry — one with the oldest
last-access instant — is removed before insertion. -/
theorem smartCache_set_size_bound_and_lru_eviction (c : SmartCache α)
    (key : String) (v : Option α) (ttl : Option ℚ) (now : ℚ)
    (hmax : 1 ≤ c.max_size) (hsz : c.cache.length ≤ c.max_size) :
    (c.set key v ttl now).cache.length ≤ c.max_size
    ∧ (c.cache.length = c.max_size →
        ∃ q, q ∈ c.cache
          ∧ (∀ p ∈ c.cache, q.2.last_accessed ≤ p.2.last_accessed)
          ∧ (c.set key v ttl now).cache
              = dictSet key (CacheEntry.init v (resolveTtl ttl c.default_ttl) now)
                  (dictErase q.1 c.cache)) := by
  by_cases hcap : c.max_size ≤ c.cache.length
  · have hlen : c.cache.length = c.max_size := le_antisymm hsz hcap
    have hne : c.cache ≠ [] := by
      intro h0
      rw [h0] at hlen
      simp only [List.length_nil] at hlen
      omega
    obtain ⟨q, hq, hqmem, hqmin⟩ := lruPair_spec c.cache hne
    have hset : (c.set key v ttl now).cache
        = dictSet key (CacheEntry.init v (resolveTtl ttl c.default_ttl) now)
            (dictErase q.1 c.cache) := by
      simp only [SmartCache.set, if_pos hcap, SmartCache.evict_lru, hq]
    refine ⟨?_, fun _ => ⟨q, hqmem, hqmin, hset⟩⟩
    rw [hset]
    have h1 := length_dictSet_le key
      (CacheEntry.init v (resolveTtl ttl c.default_ttl) now) (dictErase q.1 c.cache)
    have h2 : (dictErase q.1 c.cache).length + 1 = c.cache.length :=
      length_dictErase_add_one ⟨q, hqmem, rfl⟩
    omega
  · have hset : (c.set key v ttl now).cache
        = dictSet key (CacheEntry.init v (resolveTtl ttl c.default_ttl) now) c.cache := by
      simp only [SmartCache.set, if_neg hcap]
    refine ⟨?_, fun hlen => absurd (le_of_eq hlen.symm) hcap⟩
    rw [hset]
    have h1 := length_dictSet_le key
      (CacheEntry.init v (resolveTtl ttl c.default_ttl) now) c.cache
    omega

/-- C2 (witness): the amended theorem applied to a concrete cache at capacity
2 with two entries. -/
theorem smartCache_set_size_bound_witness :
    (fullCache2.set "c" (some 3) none 2).cache.length ≤ fullCache2.max_size
    ∧ (fullCache2.cache.length = fullCache2.max_size →
        ∃ q, q ∈ fullCache2.cache
          ∧ (∀ p ∈ fullCache2.cache, q.2.last_accessed ≤ p.2.last_accessed)
          ∧ (fullCache2.set "c" (some 3) none 2).cache
              = dictSet "c" (CacheEntry.init (some 3) (resolveTtl none fullCache2.default_ttl) 2)
                  (dictErase q.1 fullCache2.cache)) :=
  smartCache_set_size_bound_and_lru_eviction fullCache2 "c" (some 3) none 2
    (by decide) (by decide)

/-- C3 (counterexample): a PerformanceMonitor constructed with max_metrics = 0
retains the record appended by record_metric: Python's `metrics[-0:]` slice is
the whole list, so no trimming happens and the length exceeds the maximum. -/
theorem record_metric_exceeds_zero_max_metrics :
    ¬ (((⟨[], 0, 0, 0⟩ : PerformanceMonitor).record_metric
          ⟨"n", "x", 10, 0, true, none⟩).metrics.length
        ≤ (⟨[], 0, 0, 0⟩ : PerformanceMonitor).max_metrics) := by
  decide

/-- C3 (amended): for every monitor with max_metrics ≥ 1, record_metric leaves
the log equal to a suffix of the appended log — only the oldest records are
dropped, order preserved — and its length never exceeds max_metrics. -/
theorem record_metric_bound_and_drops_oldest (m : PerformanceMonitor)
    (x : PerformanceMetric) (hmax : 1 ≤ m.max_metrics) :
    (m.record_metric x).metrics
        = (m.metrics ++ [x]).drop (m.metrics.length + 1 - m.max_metrics)
    ∧ (m.record_metric x).metrics.length ≤ m.max_metrics := by
  have h0 : ¬ m.max_metrics = 0 := by omega
  simp only [PerformanceMonitor.record_metric]
  by_cases h1 : m.max_metrics < (m.metrics ++ [x]).length
  · rw [if_pos h1, if_neg h0]
    constructor
    · simp [List.length_append]
    · simp only [List.length_drop, List.length_append, List.length_singleton]
      omega
  · rw [if_neg h1]
    simp only [List.length_append, List.length_singleton, not_lt] at h1
    constructor
    · have hz : m.metrics.length + 1 - m.max_metrics = 0 := by omega
      rw [hz, List.drop_zero]
    · simp only [List.length_append, List.length_singleton]
      omega

/-- C3 (witness): the amended theorem applied to a concrete full monitor with
max_metrics = 1. -/
theorem record_metric_bound_witness :
    (fullMonitor1.record_metric ⟨"n", "b", 2, 1, true, none⟩).metrics
        = (fullMonitor1.metrics ++ [(⟨"n", "b", 2, 1, true, none⟩ : PerformanceMetric)]).drop
            (fullMonitor1.metrics.length + 1 - fullMonitor1.max_metrics)
    ∧ (fullMonitor1.record_metric ⟨"n", "b", 2, 1, true, none⟩).metrics.length
        ≤ fullMonitor1.max_metrics :=
  record_metric_bound_and_drops_oldest fullMonitor1 ⟨"n", "b", 2, 1, true, none⟩
    (by decide)

/-- C9 (counterexample): with the operation name "" the code skips filtering
(Python truthiness treats "" as "no operation given") and returns the mean of
ALL records (10), although no record's operation equals "", where the claim
demands 0. -/
theorem get_average_duration_empty_name_not_filtered :
    (⟨[⟨"n", "x", 10, 0, true, none⟩], 1000, 0, 0⟩ : PerformanceMonitor).get_average_duration
        (some "") = 10
    ∧ (⟨[⟨"n", "x", 10, 0, true, none⟩], 1000, 0, 0⟩ : PerformanceMonitor).metrics.filter
        (fun x => x.operation = "") = [] := by
  constructor
  · norm_num [PerformanceMonitor.get_average_duration]
  · decide

/-- C9 (amended): get_average_duration returns 0 on an empty log; with no
operation it is the mean of duration_ms over all records; for every NON-EMPTY
operation name it is the mean over exactly the records whose operation equals
that name, or 0 when none match (the empty string is treated as "no filter"
by Python truthiness). -/
theorem get_average_duration_spec (m : PerformanceMonitor) (op : String)
    (hop : op ≠ "") :
    (m.metrics = [] →
        m.get_average_duration none = 0 ∧ m.get_average_duration (some op) = 0)
    ∧ (m.metrics ≠ [] →
        m.get_average_duration none
          = (m.metrics.map PerformanceMetric.duration_ms).sum
            / (m.metrics.length : ℚ))
    ∧ (m.metrics.filter (fun x => x.operation = op) = [] →
        m.get_average_duration (some op) = 0)
    ∧ (m.metrics.filter (fun x => x.operation = op) ≠ [] →
        m.get_average_duration (some op)
          = ((m.metrics.filter (fun x => x.operation = op)).map
              PerformanceMetric.duration_ms).sum
            / ((m.metrics.filter (fun x => x.operation = op)).length : ℚ)) := by
  unfold PerformanceMonitor.get_average_duration
  refine ⟨fun he => ?_, fun hne => ?_, fun hf => ?_, fun hf => ?_⟩
  · rw [if_pos he, if_pos he]
    exact ⟨rfl, rfl⟩
  · rw [if_neg hne]
    simp only [if_neg hne]
  · by_cases hm : m.metrics = []
    · rw [if_pos hm]
    · rw [if_neg hm]
      simp [if_neg hop, hf]
  · have hm : m.metrics ≠ [] := by
      intro h0
      rw [h0] at hf
      simp at hf
    rw [if_neg hm]
    simp only [if_neg hop, if_neg hf]

/-- C9 (witness): the amended theorem applied to a three-record monitor with
durations 10, 20, 30 and to the operation name "a" carried by two records. -/
theorem get_average_duration_spec_witness :
    threeRecordMonitor.get_average_duration none = 20
    ∧ threeRecordMonitor.get_average_duration (some "a") = 20 := by
  have h2 := (get_average_duration_spec threeRecordMonitor "a" (by decide)).2.1
    (by decide)
  have h4 := (get_average_duration_spec threeRecordMonitor "a" (by decide)).2.2.2
    (by decide)
  rw [h2, h4]
  constructor
  · norm_num [threeRecordMonitor]
  · have hb : (decide ("b" = "a")) = false := rfl
    have ha : (decide ("a" = "a")) = true := rfl
    norm_num [threeRecordMonitor, List.filter, hb, ha]

/-- C8: when key derivation fails, the wrapper calls the underlying operation
directly (one execution) and returns its outcome, leaving the cache and the
monitor untouched; an argument whose str conversion raises makes the
derivation fail. -/
theorem cached_key_derivation_failure_bypasses_cache
    (fres : Except String (Option α)) (c : SmartCache α)
    (mon : PerformanceMonitor) (args : List (Option String))
    (kwargs : List (String × Option String)) (now : ℚ) :
    (SmartCache._generate_key args kwargs = none →
        cachedCall fres c mon args kwargs now = ⟨fres, c, mon, 1⟩)
    ∧ (none ∈ args → SmartCache._generate_key args kwargs = none) := by
  constructor
  · intro hkey
    unfold cachedCall
    rw [hkey]
  · intro hmem
    unfold SmartCache._generate_key
    rw [seqStr_eq_none_of_mem hmem]

/-- C8 (witness): the theorem applied to a non-stringifiable argument list
`[none]` on a concrete cache and monitor. -/
theorem cached_key_derivation_failure_witness :
    cachedCall (Except.ok (some 1)) (⟨10, none, [], 0, 0⟩ : SmartCache ℕ)
        emptyMonitor [none] [] 0
      = ⟨Except.ok (some 1), ⟨10, none, [], 0, 0⟩, emptyMonitor, 1⟩
    ∧ SmartCache._generate_key [none] [] = none :=
  ⟨(cached_key_derivation_failure_bypasses_cache (Except.ok (some 1))
      ⟨10, none, [], 0, 0⟩ emptyMonitor [none] [] 0).1 (by decide),
   (cached_key_derivation_failure_bypasses_cache (Except.ok (some 1))
      (⟨10, none, [], 0, 0⟩ : SmartCache ℕ) emptyMonitor [none] [] 0).2
     (by decide)⟩

/-- C7: cache-key derivation is deterministic and keyword-order independent:
for equal positional string forms and keyword items that are a permutation of
each other (with the distinct names a dict guarantees), the derived keys are
equal. -/
theorem generate_key_kworder_independent (args : List (Option String))
    (kw1 kw2 : List (String × Option String)) (hp : kw1.Perm kw2)
    (hnd : kw1.Pairwise (fun a b => a.1 ≠ b.1)) :
    SmartCache._generate_key args kw1 = SmartCache._generate_key args kw2 :=
  generate_key_perm args kw1 kw2 hp hnd

/-- C7 (witness): the theorem applied to two keyword orders of the same two
items. -/
theorem generate_key_kworder_independent_witness :
    SmartCache._generate_key [some "1"] [("b", some "3"), ("a", some "2")]
      = SmartCache._generate_key [some "1"] [("a", some "2"), ("b", some "3")] :=
  generate_key_kworder_independent [some "1"]
    [("b", some "3"), ("a", some "2")] [("a", some "2"), ("b", some "3")]
    (by decide) (by decide)

/-- C4: get is a three-branch total function — absent key: miss recorded,
sentinel returned, cache unchanged; present but expired: entry removed, miss
recorded, sentinel returned; otherwise: access metadata updated, hit
recorded, stored value returned — and in every case exactly one hit-or-miss
event reaches the process-wide monitor. -/
theorem smartCache_get_three_branches (c : SmartCache α)
    (mon : PerformanceMonitor) (key : String) (now : ℚ)
    (hnd : (c.cache.map Prod.fst).Nodup) :
    (dictGet key c.cache = none →
        c.get mon key now
          = (none, { c with misses := c.misses + 1 }, mon.record_cache_miss))
    ∧ (∀ e, dictGet key c.cache = some e → e.is_expired now = true →
        (c.get mon key now).1 = none
        ∧ dictGet key (c.get mon key now).2.1.cache = none
        ∧ (c.get mon key now).2.1.misses = c.misses + 1
        ∧ (c.get mon key now).2.2 = mon.record_cache_miss)
    ∧ (∀ e, dictGet key c.cache = some e → e.is_expired now = false →
        (c.get mon key now).1 = e.value
        ∧ dictGet key (c.get mon key now).2.1.cache = some (e.accessed now)
        ∧ (c.get mon key now).2.1.hits = c.hits + 1
        ∧ (c.get mon key now).2.2 = mon.record_cache_hit)
    ∧ (c.get mon key now).2.2.cache_hits + (c.get mon key now).2.2.cache_misses
        = mon.cache_hits + mon.cache_misses + 1 := by
  cases hdg : dictGet key c.cache with
  | none =>
      have hg : c.get mon key now
          = (none, { c with misses := c.misses + 1 }, mon.record_cache_miss) := by
        simp only [SmartCache.get, hdg]
      refine ⟨fun _ => hg, fun e he _ => ?_, fun e he _ => ?_, ?_⟩
      · cases he
      · cases he
      · rw [hg]
        simp only [PerformanceMonitor.record_cache_miss]
        omega
  | some e =>
      by_cases hexp : e.is_expired now = true
      · have hg : c.get mon key now
            = (none,
               { c with cache := dictErase key c.cache, misses := c.misses + 1 },
               mon.record_cache_miss) := by
          simp only [SmartCache.get, hdg, hexp, if_true]
        refine ⟨fun h0 => ?_, fun e2 he2 _ => ?_, fun e2 he2 hne2 => ?_, ?_⟩
        · cases h0
        · obtain rfl : e = e2 := by injection he2
          rw [hg]
          exact ⟨rfl, dictGet_dictErase_self key c.cache hnd, rfl, rfl⟩
        · obtain rfl : e = e2 := by injection he2
          rw [hexp] at hne2
          cases hne2
        · rw [hg]
          simp only [PerformanceMonitor.record_cache_miss]
          omega
      · have hexpF : e.is_expired now = false := by
          cases hb : e.is_expired now
          · rfl
          · exact absurd hb hexp
        have hg : c.get mon key now
            = (e.value,
               { c with cache := dictSet key (e.accessed now) c.cache,
                        hits := c.hits + 1 },
               mon.record_cache_hit) := by
          simp only [SmartCache.get, hdg, hexpF, Bool.false_eq_true, if_false]
        refine ⟨fun h0 => ?_, fun e2 he2 hne2 => ?_, fun e2 he2 _ => ?_, ?_⟩
        · cases h0
        · obtain rfl : e = e2 := by injection he2
          rw [hexpF] at hne2
          cases hne2
        · obtain rfl : e = e2 := by injection he2
          rw [hg]
          exact ⟨rfl, dictGet_dictSet_self key (e.accessed now) c.cache, rfl, rfl⟩
        · rw [hg]
          simp only [PerformanceMonitor.record_cache_hit]
          omega

/-- C4 (witness): the theorem applied to a concrete one-entry cache. -/
theorem smartCache_get_three_branches_witness :
    (dictGet "k" oneEntryCache.cache = none →
        oneEntryCache.get emptyMonitor "k" 1
          = (none, { oneEntryCache with misses := oneEntryCache.misses + 1 },
             emptyMonitor.record_cache_miss))
    ∧ (∀ e, dictGet "k" oneEntryCache.cache = some e → e.is_expired 1 = true →
        (oneEntryCache.get emptyMonitor "k" 1).1 = none
        ∧ dictGet "k" (oneEntryCache.get emptyMonitor "k" 1).2.1.cache = none
        ∧ (oneEntryCache.get emptyMonitor "k" 1).2.1.misses
            = oneEntryCache.misses + 1
        ∧ (oneEntryCache.get emptyMonitor "k" 1).2.2
            = emptyMonitor.record_cache_miss)
    ∧ (∀ e, dictGet "k" oneEntryCache.cache = some e → e.is_expired 1 = false →
        (oneEntryCache.get emptyMonitor "k" 1).1 = e.value
        ∧ dictGet "k" (oneEntryCache.get emptyMonitor "k" 1).2.1.cache
            = some (e.accessed 1)
        ∧ (oneEntryCache.get emptyMonitor "k" 1).2.1.hits = oneEntryCache.hits + 1
        ∧ (oneEntryCache.get emptyMonitor "k" 1).2.2
            = emptyMonitor.record_cache_hit)
    ∧ (oneEntryCache.get emptyMonitor "k" 1).2.2.cache_hits
        + (oneEntryCache.get emptyMonitor "k" 1).2.2.cache_misses
        = emptyMonitor.cache_hits + emptyMonitor.cache_misses + 1 :=
  smartCache_get_three_branches oneEntryCache emptyMonitor "k" 1 (by decide)

/-- C5: is_expired is true iff a TTL is set and the elapsed time since
creation strictly exceeds it (a TTL of None never expires); consequently a
get after any strictly positive delay on an entry with TTL 0 removes the
entry, increments the miss counters, and returns the sentinel. -/
theorem cacheEntry_ttl_zero_expires_and_is_expired_iff (e : CacheEntry α)
    (now : ℚ) (c : SmartCache α) (mon : PerformanceMonitor) (key : String) :
    (e.is_expired now = true ↔ ∃ t, e.ttl_seconds = some t ∧ t < now - e.created_at)
    ∧ (e.ttl_seconds = none → e.is_expired now = false)
    ∧ (dictGet key c.cache = some e → e.ttl_seconds = some 0 →
        e.created_at < now →
        (c.get mon key now).1 = none
        ∧ (c.get mon key now).2.1.misses = c.misses + 1
        ∧ (c.get mon key now).2.2.cache_misses = mon.cache_misses + 1
        ∧ ((c.cache.map Prod.fst).Nodup →
            dictGet key (c.get mon key now).2.1.cache = none)) := by
  have hiff : e.is_expired now = true
      ↔ ∃ t, e.ttl_seconds = some t ∧ t < now - e.created_at := by
    unfold CacheEntry.is_expired
    cases htt : e.ttl_seconds with
    | none => simp
    | some t => simp
  refine ⟨hiff, fun hn => ?_, fun hget htt hlt => ?_⟩
  · unfold CacheEntry.is_expired
    rw [hn]
  · have hexp : e.is_expired now = true :=
      hiff.mpr ⟨0, htt, sub_pos.mpr hlt⟩
    have hg : c.get mon key now
        = (none,
           { c with cache := dictErase key c.cache, misses := c.misses + 1 },
           mon.record_cache_miss) := by
      simp only [SmartCache.get, hget, hexp, if_true]
    rw [hg]
    exact ⟨rfl, rfl, rfl, fun hnd => dictGet_dictErase_self key c.cache hnd⟩

/-- C5 (witness): the theorem applied to a TTL-0 entry created at instant 0
and read at instant 1. -/
theorem cacheEntry_ttl_zero_expires_witness :
    ((⟨some 5, 0, some 0, 0, 0⟩ : CacheEntry ℕ).is_expired 1 = true
      ↔ ∃ t, (⟨some 5, 0, some 0, 0, 0⟩ : CacheEntry ℕ).ttl_seconds = some t
          ∧ t < 1 - (⟨some 5, 0, some 0, 0, 0⟩ : CacheEntry ℕ).created_at)
    ∧ ((⟨some 5, 0, some 0, 0, 0⟩ : CacheEntry ℕ).ttl_seconds = none →
        (⟨some 5, 0, some 0, 0, 0⟩ : CacheEntry ℕ).is_expired 1 = false)
    ∧ (dictGet "k" ttlZeroCache.cache = some ⟨some 5, 0, some 0, 0, 0⟩ →
        (⟨some 5, 0, some 0, 0, 0⟩ : CacheEntry ℕ).ttl_seconds = some 0 →
        (⟨some 5, 0, some 0, 0, 0⟩ : CacheEntry ℕ).created_at < 1 →
        (ttlZeroCache.get emptyMonitor "k" 1).1 = none
        ∧ (ttlZeroCache.get emptyMonitor "k" 1).2.1.misses
            = ttlZeroCache.misses + 1
        ∧ (ttlZeroCache.get emptyMonitor "k" 1).2.2.cache_misses
            = emptyMonitor.cache_misses + 1
        ∧ ((ttlZeroCache.cache.map Prod.fst).Nodup →
            dictGet "k" (ttlZeroCache.get emptyMonitor "k" 1).2.1.cache = none)) :=
  cacheEntry_ttl_zero_expires_and_is_expired_iff ⟨some 5, 0, some 0, 0, 0⟩ 1
    ttlZeroCache emptyMonitor "k"

/-- C6: a wrapped operation that raises under instrumentation yields a failed
Metric Record carrying the failure text in the monitor's log and the error
propagates unchanged; under the caching wrapper the failed outcome is not
cached — the derived key stays absent and the operation ran once. -/
theorem monitored_failure_recorded_and_not_cached (modName op_name emsg : String)
    (dur now : ℚ) (mon : PerformanceMonitor) (c : SmartCache α)
    (args : List (Option String)) (kwargs : List (String × Option String))
    (key : String)
    (hkey : SmartCache._generate_key args kwargs = some key)
    (habs : dictGet key c.cache = none) :
    (monitoredCall (α := α) modName op_name (Except.error emsg) dur now mon).1
        = Except.error emsg
    ∧ (⟨modName, op_name, dur, now, false, some emsg⟩ : PerformanceMetric)
        ∈ (monitoredCall (α := α) modName op_name (Except.error emsg) dur now mon).2.metrics
    ∧ (cachedCall (Except.error emsg) c mon args kwargs now).result
        = Except.error emsg
    ∧ dictGet key (cachedCall (Except.error emsg) c mon args kwargs now).cache.cache
        = none
    ∧ (cachedCall (Except.error emsg) c mon args kwargs now).execs = 1 := by
  have hcc : cachedCall (Except.error emsg) c mon args kwargs now
      = ⟨Except.error emsg, { c with misses := c.misses + 1 },
         mon.record_cache_miss, 1⟩ := by
    unfold cachedCall
    rw [hkey]
    simp only [SmartCache.get, habs]
  refine ⟨rfl, self_mem_record_metric mon _, ?_, ?_, ?_⟩
  · rw [hcc]
  · rw [hcc]
    exact habs
  · rw [hcc]

/-- C6 (witness): the theorem applied to a concrete failing operation on an
empty cache. -/
theorem monitored_failure_recorded_witness :
    (monitoredCall (α := ℕ) "mod" "op" (Except.error "boom") 1 0 emptyMonitor).1
        = Except.error "boom"
    ∧ (⟨"mod", "op", 1, 0, false, some "boom"⟩ : PerformanceMetric)
        ∈ (monitoredCall (α := ℕ) "mod" "op" (Except.error "boom") 1 0
            emptyMonitor).2.metrics
    ∧ (cachedCall (Except.error "boom") (⟨10, none, [], 0, 0⟩ : SmartCache ℕ)
          emptyMonitor [some "1"] [] 0).result = Except.error "boom"
    ∧ dictGet "1" (cachedCall (Except.error "boom")
          (⟨10, none, [], 0, 0⟩ : SmartCache ℕ) emptyMonitor
          [some "1"] [] 0).cache.cache = none
    ∧ (cachedCall (Except.error "boom") (⟨10, none, [], 0, 0⟩ : SmartCache ℕ)
          emptyMonitor [some "1"] [] 0).execs = 1 :=
  monitored_failure_recorded_and_not_cached "mod" "op" "boom" 1 0 emptyMonitor
    ⟨10, none, [], 0, 0⟩ [some "1"] [] "1" (by decide) (by decide)

/-- C10: a hit on an unexpired entry whose stored value is Python None
increments the hit counters yet returns the same None sentinel as a miss, so
the caching wrapper cannot distinguish it and re-invokes the wrapped
operation on every call while still recording a cache hit. -/
theorem cached_none_value_hit_reexecutes (c : SmartCache α)
    (mon : PerformanceMonitor) (key : String) (now : ℚ) (e : CacheEntry α)
    (args : List (Option String)) (kwargs : List (String × Option String))
    (r : Option α) (hget : dictGet key c.cache = some e) (hval : e.value = none)
    (hexp : e.is_expired now = false)
    (hkey : SmartCache._generate_key args kwargs = some key) :
    (c.get mon key now).1 = none
    ∧ (c.get mon key now).2.1.hits = c.hits + 1
    ∧ (c.get mon key now).2.2.cache_hits = mon.cache_hits + 1
    ∧ (cachedCall (Except.ok r) c mon args kwargs now).execs = 1
    ∧ (cachedCall (Except.ok r) c mon args kwargs now).result = Except.ok r
    ∧ (cachedCall (Except.ok r) c mon args kwargs now).monitor.cache_hits
        = mon.cache_hits + 1 := by
  have hg : c.get mon key now
      = (none,
         { c with cache := dictSet key (e.accessed now) c.cache,
                  hits := c.hits + 1 },
         mon.record_cache_hit) := by
    simp only [SmartCache.get, hget, hexp, Bool.false_eq_true, if_false, hval]
  have hcc : cachedCall (Except.ok r) c mon args kwargs now
      = ⟨Except.ok r,
         SmartCache.set
           { c with cache := dictSet key (e.accessed now) c.cache,
                    hits := c.hits + 1 }
           key r none now,
         mon.record_cache_hit, 1⟩ := by
    simp only [cachedCall, hkey, hg]
  refine ⟨?_, ?_, ?_, ?_, ?_, ?_⟩
  · rw [hg]
  · rw [hg]
  · rw [hg]
    rfl
  · rw [hcc]
  · rw [hcc]
  · rw [hcc]
    rfl

/-- C10 (witness): the theorem applied to a concrete cache holding an
unexpired None-valued entry. -/
theorem cached_none_value_hit_reexecutes_witness :
    (noneValueCache.get emptyMonitor "k" 1).1 = none
    ∧ (noneValueCache.get emptyMonitor "k" 1).2.1.hits = noneValueCache.hits + 1
    ∧ (noneValueCache.get emptyMonitor "k" 1).2.2.cache_hits
        = emptyMonitor.cache_hits + 1
    ∧ (cachedCall (Except.ok none) noneValueCache emptyMonitor
          [some "k"] [] 1).execs = 1
    ∧ (cachedCall (Except.ok none) noneValueCache emptyMonitor
          [some "k"] [] 1).result = Except.ok none
    ∧ (cachedCall (Except.ok none) noneValueCache emptyMonitor
          [some "k"] [] 1).monitor.cache_hits = emptyMonitor.cache_hits + 1 :=
  cached_none_value_hit_reexecutes noneValueCache emptyMonitor "k" 1
    ⟨none, 0, none, 0, 0⟩ [some "k"] [] none (by decide) (by decide) (by decide)
    (by decide)

/-- C1 (counterexample): two successive identical calls of a cached-wrapped
operation that returns Python None execute the underlying operation twice,
not once — the wrapper's non-None test treats the cached None as a miss. -/
theorem cached_twice_none_result_executes_twice :
    noneResultCall1.execs + noneResultCall2.execs = 2
    ∧ ¬ (noneResultCall1.execs + noneResultCall2.execs = 1) := by
  constructor
  · decide
  · decide

/-- C1 (amended): for two successive invocations with equal arguments
(keyword order ignored) on a freshly decorated operation, provided key
derivation succeeds, no TTL expiry separates the calls, and the first
result is not the None sentinel, the underlying operation executes exactly
once across both calls and the second call returns the first call's exact
result (whatever outcome the operation would produce on the second call). -/
theorem cached_twice_executes_once_and_returns_first_result
    (d : Option ℚ) (mon0 : PerformanceMonitor) (args : List (Option String))
    (kw1 kw2 : List (String × Option String)) (v : α)
    (fres2 : Except String (Option α)) (now1 now2 : ℚ) (key : String)
    (hkey : SmartCache._generate_key args kw1 = some key)
    (hp : kw1.Perm kw2) (hnd : kw1.Pairwise (fun a b => a.1 ≠ b.1))
    (hexp : ∀ t, d = some t → now2 - now1 ≤ t) :
    (cachedCall (Except.ok (some v)) (cachedFreshCache d) mon0 args kw1 now1).execs
      + (cachedCall fres2
          (cachedCall (Except.ok (some v)) (cachedFreshCache d) mon0 args kw1 now1).cache
          (cachedCall (Except.ok (some v)) (cachedFreshCache d) mon0 args kw1 now1).monitor
          args kw2 now2).execs = 1
    ∧ (cachedCall fres2
          (cachedCall (Except.ok (some v)) (cachedFreshCache d) mon0 args kw1 now1).cache
          (cachedCall (Except.ok (some v)) (cachedFreshCache d) mon0 args kw1 now1).monitor
          args kw2 now2).result
        = (cachedCall (Except.ok (some v)) (cachedFreshCache d) mon0 args kw1 now1).result := by
  have hkey2 : SmartCache._generate_key args kw2 = some key := by
    rw [← generate_key_perm args kw1 kw2 hp hnd]
    exact hkey
  have hc1 : cachedCall (Except.ok (some v)) (cachedFreshCache d) mon0 args kw1 now1
      = ⟨Except.ok (some v),
         ⟨1000, d, [(key, CacheEntry.init (some v) d now1)], 0, 1⟩,
         mon0.record_cache_miss, 1⟩ := by
    unfold cachedCall
    rw [hkey]
    rfl
  have hexpF : (CacheEntry.init (some v) d now1 : CacheEntry α).is_expired now2
      = false := by
    cases d with
    | none => rfl
    | some t =>
        simp only [CacheEntry.is_expired, CacheEntry.init,
          decide_eq_false_iff_not, not_lt]
        exact hexp t rfl
  have hc2 : cachedCall fres2
        (⟨1000, d, [(key, CacheEntry.init (some v) d now1)], 0, 1⟩ : SmartCache α)
        mon0.record_cache_miss args kw2 now2
      = ⟨Except.ok (some v),
         ⟨1000, d,
          [(key, (CacheEntry.init (some v) d now1 : CacheEntry α).accessed now2)],
          1, 1⟩,
         mon0.record_cache_miss.record_cache_hit, 0⟩ := by
    have hget : (⟨1000, d, [(key, CacheEntry.init (some v) d now1)], 0, 1⟩ :
          SmartCache α).get mon0.record_cache_miss key now2
        = ((CacheEntry.init (some v) d now1 : CacheEntry α).value,
           ⟨1000, d,
            [(key, (CacheEntry.init (some v) d now1 : CacheEntry α).accessed now2)],
            1, 1⟩,
           mon0.record_cache_miss.record_cache_hit) := by
      simp [SmartCache.get, dictGet, dictSet, hexpF]
    simp only [CacheEntry.init] at hget
    simp only [cachedCall, hkey2, CacheEntry.init, hget]
  rw [hc1]
  rw [show (⟨Except.ok (some v),
        ⟨1000, d, [(key, CacheEntry.init (some v) d now1)], 0, 1⟩,
        mon0.record_cache_miss, 1⟩ : CallResult α).cache
      = ⟨1000, d, [(key, CacheEntry.init (some v) d now1)], 0, 1⟩ from rfl]
  rw [show (⟨Except.ok (some v),
        ⟨1000, d, [(key, CacheEntry.init (some v) d now1)], 0, 1⟩,
        mon0.record_cache_miss, 1⟩ : CallResult α).monitor
      = mon0.record_cache_miss from rfl]
  rw [hc2]
  exact ⟨rfl, rfl⟩

/-- C1 (witness): the amended theorem applied to a concrete operation
returning 42, called twice with the same single argument. -/
theorem cached_twice_executes_once_witness :
    someResultCall1.execs + someResultCall2.execs = 1
    ∧ someResultCall2.result = someResultCall1.result :=
  cached_twice_executes_once_and_returns_first_result none ⟨[], 1000, 0, 0⟩
    [some "7"] [] [] 42 (Except.error "x") 0 5 "7" (by decide) (by decide)
    (by decide) (fun t h => by cases h)
